import Mathlib

/-!
Shallow embedding of the neo-cli plugin registry and REPL command resolver.

The definitions below are translated from the repository's source:
* the plugin system (`PluginAPI`, the module-level `plugins` map,
  `loadPlugin`, `getAllPlugins`, `getPluginCommands`,
  `executePluginCommand`, `executeHooks`), and
* the REPL resolver (`BUILTIN_COMMANDS`, `processInput`) together with the
  bounded command history.

JavaScript `Map`s and plain objects (own properties) are modelled as
association lists from `String` keys, preserving insertion order, with
`Map.set` semantics (`mapSet`): replacing an existing key keeps its
position, a new key is appended.  JavaScript runtime values that matter to
the claims are modelled by `JSVal` with JS truthiness.  Handlers are Lean
functions that receive the mutable settings object and return the possibly
mutated settings together with a normal result or a thrown error
(`Except`).  Side effects that the claims talk about (persisting the
settings, dispatching a line, log lines) are made explicit as returned
events and log lists.
-/

namespace NeoCli

/-- JavaScript runtime values, as far as the claims need them. -/
inductive JSVal where
  | null
  | bool (b : Bool)
  | num (n : Int)
  | str (s : String)
  deriving DecidableEq, Repr

/-- JavaScript truthiness of a `JSVal`. -/
def JSVal.truthy : JSVal → Bool
  | .null => false
  | .bool b => b
  | .num n => n != 0
  | .str s => s != ""

/-- Lookup in a JS `Map` / object: first entry with the given key. -/
def mapGet {α : Type} (m : List (String × α)) (k : String) : Option α :=
  (m.find? (fun p => p.1 == k)).map (fun p => p.2)

/-- JS `Map.set` / object property write: replace in place when the key is
present, append otherwise. -/
def mapSet {α : Type} (m : List (String × α)) (k : String) (v : α) :
    List (String × α) :=
  if m.any (fun p => p.1 == k) then
    m.map (fun p => if p.1 == k then (k, v) else p)
  else
    m ++ [(k, v)]

/-- The keys of the association-list map, in insertion order. -/
def mapKeys {α : Type} (m : List (String × α)) : List String :=
  m.map (fun p => p.1)

/-- The value of the last entry with the given key, if any (the last write
when the list records writes in order). -/
def lastAssoc {α : Type} (l : List (String × α)) (k : String) : Option α :=
  (l.reverse.find? (fun p => p.1 == k)).map (fun p => p.2)

/-- Build a string back from its characters. -/
def ofChars (l : List Char) : String := ⟨l⟩

/-- Character-level worker for `splitChar`: `acc` holds the current field's
characters in reverse. -/
def splitCharAux (sep : Char) : List Char → List Char → List String
  | [], acc => [ofChars acc.reverse]
  | c :: rest, acc =>
    if c = sep then ofChars acc.reverse :: splitCharAux sep rest []
    else splitCharAux sep rest (c :: acc)

/-- JavaScript `str.split(sep)` for a one-character separator: keeps empty
fields, `"".split(sep) == [""]`. -/
def splitChar (sep : Char) (s : String) : List String :=
  splitCharAux sep s.data []

/-- Whether the first character list is an initial segment of the second. -/
def beginsWithChars : List Char → List Char → Bool
  | [], _ => true
  | _ :: _, [] => false
  | a :: as, b :: bs => a = b && beginsWithChars as bs

/-- Whether the first character list occurs contiguously in the second. -/
def containsChars (needle : List Char) : List Char → Bool
  | [] => beginsWithChars needle []
  | c :: rest => beginsWithChars needle (c :: rest) || containsChars needle rest

/-- Whether `pat` occurs as a contiguous substring of `s`. -/
def containsStr (s pat : String) : Bool :=
  containsChars pat.data s.data

/-- JavaScript `str.trim()`: strip leading and trailing whitespace. -/
def jsTrim (s : String) : String :=
  ofChars (((s.data.dropWhile Char.isWhitespace).reverse.dropWhile
    Char.isWhitespace).reverse)

/-- The slice of the persisted configuration object that the registry and
resolver read and mutate (`config.aliases`, `config.history`). -/
structure Settings where
  aliases : List (String × String)
  history : List String
  deriving DecidableEq, Repr

/-- A plugin command handler: receives `(args, config, ownerPluginName)`,
may mutate the settings, and either returns a value or throws. -/
def CommandHandler : Type :=
  List String → Settings → String → Except String JSVal × Settings

/-- A hook handler: receives `(data, config, pluginName)`, may mutate the
settings, and either returns a value or throws. -/
def HookHandler : Type :=
  JSVal → Settings → String → Except String JSVal × Settings

/-- An entry of a plugin's own command map (`{ handler, description }`). -/
structure Command where
  handler : CommandHandler
  description : String

/-- An entry of the effective command table produced by
`getPluginCommands`: the command spread together with the owning plugin's
name (`{ ...command, plugin: plugin.name }`). -/
structure PluginCommand where
  handler : CommandHandler
  description : String
  plugin : String

/-- The capability handle given to a plugin's initializer
(`new PluginAPI(name, {})`). -/
structure PluginAPI where
  name : String
  config : List (String × JSVal)
  commands : List (String × Command)
  hooks : List (String × List HookHandler)

/-- `PluginAPI.registerCommand`: `this.commands.set(name, { handler,
description })`. -/
def PluginAPI.registerCommand (api : PluginAPI) (name : String)
    (handler : CommandHandler) (description : String) : PluginAPI :=
  { api with commands := mapSet api.commands name ⟨handler, description⟩ }

/-- `PluginAPI.registerHook`: create the empty list when absent, then push
the handler onto the named hook's list. -/
def PluginAPI.registerHook (api : PluginAPI) (name : String)
    (handler : HookHandler) : PluginAPI :=
  { api with
    hooks := mapSet api.hooks name (((mapGet api.hooks name).getD []) ++ [handler]) }

/-- `PluginAPI.getConfig`: `this.config[key] || defaultValue` — note the JS
`||`, which yields the default for any falsy stored value, and for an
absent key. -/
def PluginAPI.getConfig (api : PluginAPI) (key : String)
    (defaultValue : JSVal) : JSVal :=
  match mapGet api.config key with
  | some v => if v.truthy then v else defaultValue
  | none => defaultValue

/-- `PluginAPI.setConfig`: `this.config[key] = value`. -/
def PluginAPI.setConfig (api : PluginAPI) (key : String) (value : JSVal) :
    PluginAPI :=
  { api with config := mapSet api.config key value }

/-- A loaded plugin as stored in the registry map. -/
structure Plugin where
  name : String
  path : String
  commands : List (String × Command)
  hooks : List (String × List HookHandler)

/-- The module-level `plugins` map: plugin name → plugin, insertion order. -/
abbrev Registry : Type := List (String × Plugin)

/-- `getAllPlugins()`: `Array.from(plugins.values())`. -/
def getAllPlugins (reg : Registry) : List Plugin :=
  reg.map (fun entry => entry.2)

/-- `getPluginCommands()`: fold every plugin's command map, in registry
order, into one table; `allCommands.set` makes a later same-named entry
overwrite an earlier one. -/
def getPluginCommands (reg : Registry) : List (String × PluginCommand) :=
  reg.foldl
    (fun acc entry =>
      entry.2.commands.foldl
        (fun acc2 nc =>
          mapSet acc2 nc.1 ⟨nc.2.handler, nc.2.description, entry.2.name⟩)
        acc)
    []

/-- The error message thrown when `executePluginCommand` misses. -/
def cmdNotFoundMsg (name : String) : String :=
  "Plugin command '" ++ name ++ "' not found"

/-- The log line written when a plugin command handler throws
(`logger.error` in `executePluginCommand`). -/
def cmdFailLog (name msg : String) : String :=
  "Plugin command '" ++ name ++ "' failed: " ++ msg

/-- `executePluginCommand(name, args, config)`: look the name up in
`getPluginCommands()`, throw when absent, otherwise call the handler with
`(args, config, command.plugin)`; a thrown handler error is logged and
re-thrown.  The returned triple is (result-or-error, settings after the
call, log lines written). -/
def executePluginCommand (reg : Registry) (name : String)
    (args : List String) (config : Settings) :
    Except String JSVal × Settings × List String :=
  match mapGet (getPluginCommands reg) name with
  | none => (Except.error (cmdNotFoundMsg name), config, [])
  | some command =>
    match command.handler args config command.plugin with
    | (Except.ok v, config2) => (Except.ok v, config2, [])
    | (Except.error e, config2) => (Except.error e, config2, [cmdFailLog name e])

/-- The log line written when a hook handler throws (`logger.error` in
`executeHooks`). -/
def hookFailLog (hookName pluginName msg : String) : String :=
  "Plugin hook '" ++ hookName ++ "' in '" ++ pluginName ++ "' failed: " ++ msg

/-- `executeHooks(hookName, data, config)`: for every plugin in registry
order, for every handler of the named hook in registration order, call
`hook(data, config, plugin.name)`; push the result on success, log on
throw and continue.  Returns (results, log lines, settings after all
handlers ran). -/
def executeHooks (reg : Registry) (hookName : String) (data : JSVal)
    (config : Settings) : List JSVal × List String × Settings :=
  reg.foldl
    (fun st entry =>
      ((mapGet entry.2.hooks hookName).getD []).foldl
        (fun st2 hook =>
          match hook data st2.2.2 entry.2.name with
          | (Except.ok r, c2) => (st2.1 ++ [r], st2.2.1, c2)
          | (Except.error e, c2) =>
            (st2.1, st2.2.1 ++ [hookFailLog hookName entry.2.name e], c2))
        st)
    ([], [], config)

/-- A plugin module's initializer: receives the capability handle, performs
registrations on it, and either finishes or throws. -/
def InitFn : Type := PluginAPI → Except String PluginAPI

/-- What a dynamic `import` of a plugin file can expose: optionally a
default function and optionally a named `init` function. -/
structure PluginModule where
  defaultFn : Option InitFn
  initFn : Option InitFn

/-- The parts of the host environment `loadPlugin` consults:
`fs.existsSync` and the dynamic module import (which can reject). -/
structure Env where
  fileExists : String → Bool
  importModule : String → Except String PluginModule

/-- `path.basename(pluginPath, '.js')`: the last path component with a
trailing `.js` stripped. -/
def basename (p : String) : String :=
  let base := (splitChar '/' p).getLastD p
  if (".js".data).isSuffixOf base.data then
    ofChars (base.data.take (base.data.length - 3))
  else base

/-- The steps of `loadPlugin` up to (not including) the registry write:
existence check, module import, name derivation, fresh capability handle,
and running the module's initializer (`default` preferred over `init`,
neither being a contract violation).  None of these steps touches the
registry. -/
def loadPluginCore (env : Env) (pluginPath : String) : Except String Plugin :=
  if env.fileExists pluginPath = false then
    Except.error ("Plugin file not found: " ++ pluginPath)
  else
    match env.importModule pluginPath with
    | Except.error e => Except.error e
    | Except.ok pluginModule =>
      match (match pluginModule.defaultFn with
             | some f => f ⟨basename pluginPath, [], [], []⟩
             | none =>
               match pluginModule.initFn with
               | some f => f ⟨basename pluginPath, [], [], []⟩
               | none =>
                 Except.error
                   "Plugin must export a default function or init function") with
      | Except.error e => Except.error e
      | Except.ok api =>
        Except.ok ⟨basename pluginPath, pluginPath, api.commands, api.hooks⟩

/-- `loadPlugin(pluginPath)`: on any failure the error is re-thrown (after
logging) and the registry is untouched; on success `plugins.set(pluginName,
...)` inserts or replaces the entry.  Returns the registry after the call
together with the outcome. -/
def loadPlugin (env : Env) (reg : Registry) (pluginPath : String) :
    Registry × Except String Plugin :=
  match loadPluginCore env pluginPath with
  | Except.error e => (reg, Except.error e)
  | Except.ok plugin => (mapSet reg plugin.name plugin, Except.ok plugin)

/-- A sequence of `loadPlugin` calls against the same registry. -/
def loadSeq (env : Env) (reg : Registry) (paths : List String) : Registry :=
  paths.foldl (fun r p => (loadPlugin env r p).1) reg

/-- The keys of `BUILTIN_COMMANDS` in the REPL. -/
def BUILTIN_NAMES : List String :=
  ["help", "exit", "clear", "history", "alias",
   "create", "open", "edit", "delete", "ls", "cd"]

/-- `BUILTIN_COMMANDS[command]` is truthy exactly for the built-in names. -/
def isBuiltin (command : String) : Bool :=
  BUILTIN_NAMES.contains command

/-- Where `processInput` dispatches a line: a built-in handler with its
argument tokens, the external process runner with a full command string,
or the `neo-cli` informational notice. -/
inductive Dispatch where
  | builtin (name : String) (args : List String)
  | runExternal (line : String)
  | neoCliNotice
  deriving DecidableEq, Repr

/-- The externally visible actions of `processInput`, in order:
`saveConfig(config)` and the dispatch of the line. -/
inductive Event where
  | save (s : Settings)
  | dispatch (d : Dispatch)
  deriving DecidableEq, Repr

/-- The history cap in `processInput`: `if (config.history.length > 100)
config.history = config.history.slice(-100)`. -/
def trimHistory (h : List String) : List String :=
  if h.length > 100 then h.drop (h.length - 100) else h

/-- The dispatch decision of `processInput` for a non-empty trimmed line:
built-ins first, then a truthy alias entry (expanded once: built-in head
runs as built-in, otherwise the whole expansion goes to the external
runner), then the literal `neo-cli` notice, then the external runner. -/
def resolveLine (trimmedInput : String) (config : Settings) : Dispatch :=
  let parts := splitChar ' ' trimmedInput
  let command := parts.headD ""
  let args := parts.tail
  if isBuiltin command then
    Dispatch.builtin command args
  else
    let aliasCommand := (mapGet config.aliases command).getD ""
    if aliasCommand = "" then
      if command = "neo-cli" then Dispatch.neoCliNotice
      else Dispatch.runExternal trimmedInput
    else
      let aliasParts := splitChar ' ' aliasCommand
      let aliasCmd := aliasParts.headD ""
      let aliasArgs := aliasParts.tail
      if isBuiltin aliasCmd then Dispatch.builtin aliasCmd aliasArgs
      else Dispatch.runExternal aliasCommand

/-- `processInput(input, config)`: trim; an empty line is a no-op;
otherwise push the line onto `config.history`, cap the history at 100
(oldest evicted), `saveConfig`, and only then resolve and dispatch the
line.  Returns the settings after the call and the ordered events. -/
def processInput (input : String) (config : Settings) :
    Settings × List Event :=
  let trimmedInput := jsTrim input
  if trimmedInput = "" then (config, [])
  else
    let config1 : Settings :=
      { config with history := trimHistory (config.history ++ [trimmedInput]) }
    (config1, [Event.save config1, Event.dispatch (resolveLine trimmedInput config1)])

/-- The dispatch event of a `processInput` run, if one happened. -/
def dispatchOf (r : Settings × List Event) : Option Dispatch :=
  (r.2.filterMap (fun e =>
    match e with
    | Event.dispatch d => some d
    | Event.save _ => none)).head?

/-- The sequence of `(name, entry)` writes `getPluginCommands` performs,
in order: every plugin's commands, registry order first, each tagged with
its owner. -/
def commandWrites (reg : Registry) : List (String × PluginCommand) :=
  (reg.map (fun entry =>
    entry.2.commands.map (fun nc =>
      (nc.1, PluginCommand.mk nc.2.handler nc.2.description entry.2.name)))).flatten

/-- The flat sequence of handlers `executeHooks` visits for a hook name:
registry order, then per-plugin registration order, each paired with its
owning plugin's name. -/
def hookSeq (reg : Registry) (hookName : String) :
    List (String × HookHandler) :=
  (reg.map (fun entry =>
    ((mapGet entry.2.hooks hookName).getD []).map
      (fun h => (entry.2.name, h)))).flatten

/-- The broadcast described by the spec: run the handlers of the flat
sequence strictly in order, threading the settings; collect the result of
every handler that returns, log and skip every handler that throws,
never aborting. -/
def broadcastSpec (hookName : String) :
    List (String × HookHandler) → JSVal → Settings →
      List JSVal × List String × Settings
  | [], _, config => ([], [], config)
  | (pluginName, h) :: rest, data, config =>
    match h data config pluginName with
    | (Except.ok r, c2) =>
      let t := broadcastSpec hookName rest data c2
      (r :: t.1, t.2.1, t.2.2)
    | (Except.error e, c2) =>
      let t := broadcastSpec hookName rest data c2
      (t.1, hookFailLog hookName pluginName e :: t.2.1, t.2.2)

/-- A trivial command handler used in concrete witnesses. -/
def okHandler : CommandHandler := fun _ s _ => (Except.ok JSVal.null, s)

/-- A command handler that throws `boom`, used in concrete witnesses. -/
def boomHandler : CommandHandler := fun _ s _ => (Except.error "boom", s)

/-- Empty settings used in concrete witnesses. -/
def settings0 : Settings := ⟨[], []⟩

/-- A fresh capability handle used in concrete witnesses. -/
def apiEmpty : PluginAPI := ⟨"p", [], [], []⟩

/-- Witness plugin `A`: registers command `x`. -/
def pluginA : Plugin := ⟨"A", "A.js", [("x", ⟨okHandler, "from A"⟩)], []⟩

/-- Witness plugin `B`: also registers command `x`. -/
def pluginB : Plugin := ⟨"B", "B.js", [("x", ⟨okHandler, "from B"⟩)], []⟩

/-- Witness registry where `A` was loaded before `B`, both owning `x`. -/
def regAB : Registry := [("A", pluginA), ("B", pluginB)]

/-- Witness registry with one plugin `ownerplugin` whose command `x`
throws. -/
def regOwner : Registry :=
  [("ownerplugin", ⟨"ownerplugin", "ownerplugin.js",
    [("x", ⟨boomHandler, ""⟩)], []⟩)]

/-- Witness registry with a plugin that owns command `mycmd`. -/
def regMy : Registry :=
  [("p", ⟨"p", "p.js", [("mycmd", ⟨okHandler, ""⟩)], []⟩)]

/-- Witness environment: every file exists and imports a module whose
default initializer registers command `x`. -/
def envW : Env :=
  ⟨fun _ => true,
   fun _ => Except.ok ⟨some (fun api =>
     Except.ok (api.registerCommand "x" okHandler "")), none⟩⟩

/-- Witness environment in which no plugin file exists. -/
def envFail : Env :=
  ⟨fun _ => false, fun _ => Except.error "unreachable"⟩

/-! ### Helper lemmas about the association-list map model -/

theorem mapGet_map_replace_self {α : Type} (m : List (String × α))
    (k : String) (v : α) (hA : m.any (fun p => p.1 == k) = true) :
    mapGet (m.map (fun p => if p.1 == k then (k, v) else p)) k = some v := by
  induction m with
  | nil => simp at hA
  | cons p t ih =>
    cases h : (p.1 == k) with
    | true =>
      simp only [List.map_cons, h, if_true]
      simp [mapGet]
    | false =>
      simp only [List.any_cons, h, Bool.false_or] at hA
      simp only [List.map_cons, h, if_false]
      unfold mapGet
      rw [List.find?_cons_of_neg _ (by simp [h])]
      exact ih hA

theorem mapGet_map_replace_ne {α : Type} (m : List (String × α))
    (k k' : String) (v : α) (hne : k ≠ k') :
    mapGet (m.map (fun p => if p.1 == k then (k, v) else p)) k' = mapGet m k' := by
  induction m with
  | nil => rfl
  | cons p t ih =>
    cases h : (p.1 == k) with
    | true =>
      have hpk : p.1 = k := by simpa using h
      simp only [List.map_cons, h, if_true]
      unfold mapGet
      rw [List.find?_cons_of_neg _ (by simp [hne]),
        List.find?_cons_of_neg _ (by simp [hpk, hne])]
      exact ih
    | false =>
      simp only [List.map_cons, h, if_false]
      cases h' : (p.1 == k') with
      | true =>
        unfold mapGet
        rw [List.find?_cons_of_pos _ (by simp_all),
          List.find?_cons_of_pos _ (by simp_all)]
        simp [h]
      | false =>
        unfold mapGet
        rw [List.find?_cons_of_neg _ (by simp_all),
          List.find?_cons_of_neg _ (by simp_all)]
        exact ih

theorem mapGet_eq_none_of_any_false {α : Type} (m : List (String × α))
    (k : String) (hA : m.any (fun p => p.1 == k) = false) :
    mapGet m k = none := by
  unfold mapGet
  rw [List.find?_eq_none.2]
  · rfl
  · intro x hx
    simp only [List.any_eq_false] at hA
    simpa using hA x hx

theorem mapGet_mapSet_self {α : Type} (m : List (String × α))
    (k : String) (v : α) : mapGet (mapSet m k v) k = some v := by
  unfold mapSet
  cases hA : m.any (fun p => p.1 == k) with
  | true => simpa using mapGet_map_replace_self m k v hA
  | false =>
    simp only [Bool.false_eq_true, if_false]
    unfold mapGet
    rw [List.find?_append, (List.find?_eq_none.2 _)]
    · simp [mapGet]
    · intro x hx
      simp only [List.any_eq_false] at hA
      simpa using hA x hx

theorem mapGet_mapSet_ne {α : Type} (m : List (String × α))
    (k k' : String) (v : α) (hne : k ≠ k') :
    mapGet (mapSet m k v) k' = mapGet m k' := by
  unfold mapSet
  cases hA : m.any (fun p => p.1 == k) with
  | true => simpa using mapGet_map_replace_ne m k k' v hne
  | false =>
    simp only [Bool.false_eq_true, if_false]
    unfold mapGet
    rw [List.find?_append]
    have hkk : (k == k') = false := by simpa using hne
    have : List.find? (fun p => p.1 == k') [(k, v)] = none := by
      simp [List.find?, hkk]
    rw [this]
    cases m.find? (fun p => p.1 == k') <;> rfl

theorem lastAssoc_append {α : Type} (l1 l2 : List (String × α)) (k : String) :
    lastAssoc (l1 ++ l2) k = (lastAssoc l2 k).or (lastAssoc l1 k) := by
  unfold lastAssoc
  rw [List.reverse_append, List.find?_append]
  cases l2.reverse.find? (fun p => p.1 == k) <;> simp

theorem lastAssoc_cons {α : Type} (p : String × α) (t : List (String × α))
    (k : String) :
    lastAssoc (p :: t) k =
      (lastAssoc t k).or (if p.1 == k then some p.2 else none) := by
  have h : p :: t = [p] ++ t := rfl
  rw [h, lastAssoc_append]
  have h1 : lastAssoc [p] k = if p.1 == k then some p.2 else none := by
    unfold lastAssoc
    cases hp : (p.1 == k) <;> simp [List.find?, hp]
  rw [h1]

theorem mapGet_foldl_mapSet {α : Type} (l : List (String × α))
    (acc : List (String × α)) (k : String) :
    mapGet (l.foldl (fun m p => mapSet m p.1 p.2) acc) k =
      (lastAssoc l k).or (mapGet acc k) := by
  induction l generalizing acc with
  | nil => simp [lastAssoc]
  | cons p t ih =>
    rw [List.foldl_cons, ih, lastAssoc_cons]
    cases hl : lastAssoc t k with
    | some v => simp
    | none =>
      simp only [Option.none_or]
      cases h : (p.1 == k) with
      | true =>
        have hpk : p.1 = k := by simpa using h
        subst hpk
        simp [mapGet_mapSet_self]
      | false =>
        have hpk : p.1 ≠ k := by simpa using h
        simp [mapGet_mapSet_ne _ _ _ _ hpk]

theorem lastAssoc_map_entry {α β : Type} (l : List (String × α))
    (g : String × α → β) (k : String) :
    lastAssoc (l.map (fun p => (p.1, g p))) k =
      (l.reverse.find? (fun p => p.1 == k)).map (fun p => g p) := by
  unfold lastAssoc
  rw [← List.map_reverse, List.find?_map]
  simp only [Option.map_map]
  have h1 : ((fun p : String × β => p.1 == k) ∘ fun p : String × α => (p.1, g p)) =
      (fun p : String × α => p.1 == k) := rfl
  have h2 : ((fun p : String × β => p.2) ∘ fun p : String × α => (p.1, g p)) =
      (fun p : String × α => g p) := rfl
  rw [h1, h2]

theorem getPluginCommands_eq_foldl (reg : Registry) :
    getPluginCommands reg =
      (commandWrites reg).foldl (fun m p => mapSet m p.1 p.2) [] := by
  unfold getPluginCommands commandWrites
  rw [List.foldl_flatten, List.foldl_map]
  congr 1
  funext acc entry
  rw [List.foldl_map]

theorem commandWrites_append (r1 r2 : Registry) :
    commandWrites (r1 ++ r2) = commandWrites r1 ++ commandWrites r2 := by
  simp [commandWrites]

/-! ### Claim theorems -/

/-- C1: the effective command table built by `getPluginCommands` is the
fold of each plugin's command map in registry order, so whenever the plugin
iterated last registers a command name (here: any registry ending in
`(nb, B)` where `B`'s own command map ultimately binds `x` to `c`), the
exposed entry for that name is `B`'s, its owner field (`plugin`) naming
`B`; the fold is total, so no error is raised on a collision. -/
theorem effectiveCommands_last_registry_wins (pre : Registry) (nb : String)
    (B : Plugin) (x : String) (c : Command)
    (h : lastAssoc B.commands x = some c) :
    mapGet (getPluginCommands (pre ++ [(nb, B)])) x =
      some (PluginCommand.mk c.handler c.description B.name) := by
  rw [getPluginCommands_eq_foldl, mapGet_foldl_mapSet, commandWrites_append,
    lastAssoc_append]
  have hsingle : lastAssoc (commandWrites [(nb, B)]) x =
      some (PluginCommand.mk c.handler c.description B.name) := by
    have hcw : commandWrites [(nb, B)] =
        B.commands.map (fun nc =>
          (nc.1, PluginCommand.mk nc.2.handler nc.2.description B.name)) := by
      simp [commandWrites]
    rw [hcw, lastAssoc_map_entry B.commands
      (fun nc => PluginCommand.mk nc.2.handler nc.2.description B.name) x]
    unfold lastAssoc at h
    cases hf : B.commands.reverse.find? (fun p => p.1 == x) with
    | none => rw [hf] at h; simp at h
    | some p0 =>
      rw [hf] at h
      simp only [Option.map_some'] at h
      have hc : p0.2 = c := Option.some.inj h
      simp [hf, hc]
  rw [hsingle]
  rfl

/-- Witness for C1 at a concrete registry: `A` then `B` both register
`x`; the effective entry for `x` is `B`'s, owned by `B`. -/
theorem effectiveCommands_last_registry_wins_witness :
    lastAssoc pluginB.commands "x" = some ⟨okHandler, "from B"⟩ ∧
    mapGet (getPluginCommands regAB) "x" =
      some (PluginCommand.mk okHandler "from B" "B") :=
  ⟨rfl, effectiveCommands_last_registry_wins [("A", pluginA)] "B" pluginB
    "x" ⟨okHandler, "from B"⟩ rfl⟩

theorem broadcastSpec_append (n : String) (l1 l2 : List (String × HookHandler))
    (d : JSVal) (c : Settings) :
    broadcastSpec n (l1 ++ l2) d c =
      ((broadcastSpec n l1 d c).1 ++
         (broadcastSpec n l2 d (broadcastSpec n l1 d c).2.2).1,
       (broadcastSpec n l1 d c).2.1 ++
         (broadcastSpec n l2 d (broadcastSpec n l1 d c).2.2).2.1,
       (broadcastSpec n l2 d (broadcastSpec n l1 d c).2.2).2.2) := by
  induction l1 generalizing c with
  | nil => simp [broadcastSpec]
  | cons ph t ih =>
    obtain ⟨pn, h⟩ := ph
    cases hh : h d c pn with
    | mk res c2 =>
      cases res with
      | ok v =>
        simp only [List.cons_append, broadcastSpec, hh, List.append_eq]
        rw [ih c2]
      | error e =>
        simp only [List.cons_append, broadcastSpec, hh, List.append_eq]
        rw [ih c2]

theorem hooksFold_inner (n pn : String) (d : JSVal) (hs : List HookHandler)
    (st : List JSVal × List String × Settings) :
    hs.foldl (fun st2 hook =>
      match hook d st2.2.2 pn with
      | (Except.ok r, c2) => (st2.1 ++ [r], st2.2.1, c2)
      | (Except.error e, c2) =>
        (st2.1, st2.2.1 ++ [hookFailLog n pn e], c2)) st =
    (st.1 ++ (broadcastSpec n (hs.map (fun h => (pn, h))) d st.2.2).1,
     st.2.1 ++ (broadcastSpec n (hs.map (fun h => (pn, h))) d st.2.2).2.1,
     (broadcastSpec n (hs.map (fun h => (pn, h))) d st.2.2).2.2) := by
  induction hs generalizing st with
  | nil => simp [broadcastSpec]
  | cons h t ih =>
    obtain ⟨rs, ls, c⟩ := st
    cases hh : h d c pn with
    | mk res c2 =>
      cases res with
      | ok v =>
        simp only [List.foldl_cons, List.map_cons, broadcastSpec, hh]
        rw [ih]
        simp
      | error e =>
        simp only [List.foldl_cons, List.map_cons, broadcastSpec, hh]
        rw [ih]
        simp

theorem hookSeq_cons (e : String × Plugin) (t : Registry) (n : String) :
    hookSeq (e :: t) n =
      ((mapGet e.2.hooks n).getD []).map (fun h => (e.2.name, h)) ++
        hookSeq t n := by
  simp [hookSeq]

theorem hooksFold_outer (n : String) (d : JSVal) :
    ∀ (reg : Registry) (st : List JSVal × List String × Settings),
    reg.foldl (fun st entry =>
      ((mapGet entry.2.hooks n).getD []).foldl
        (fun st2 hook =>
          match hook d st2.2.2 entry.2.name with
          | (Except.ok r, c2) => (st2.1 ++ [r], st2.2.1, c2)
          | (Except.error e, c2) =>
            (st2.1, st2.2.1 ++ [hookFailLog n entry.2.name e], c2))
        st) st =
      (st.1 ++ (broadcastSpec n (hookSeq reg n) d st.2.2).1,
       st.2.1 ++ (broadcastSpec n (hookSeq reg n) d st.2.2).2.1,
       (broadcastSpec n (hookSeq reg n) d st.2.2).2.2) := by
  intro reg
  induction reg with
  | nil => intro st; simp [hookSeq, broadcastSpec]
  | cons e t ih =>
    intro st
    simp only [List.foldl_cons]
    rw [hooksFold_inner, ih, hookSeq_cons, broadcastSpec_append]
    simp

/-- C2: `executeHooks` runs every registered handler of the hook, strictly
in registry order then per-plugin registration order (the flat sequence
`hookSeq`), threading the settings; the broadcast described by the spec
(`broadcastSpec`) collects, in order, exactly the results of the handlers
that did not throw, and for each throwing handler appends one log line and
continues, never aborting; `executeHooks` equals that broadcast. -/
theorem executeHooks_eq_broadcastSpec (reg : Registry) (n : String)
    (d : JSVal) (c : Settings) :
    executeHooks reg n d c = broadcastSpec n (hookSeq reg n) d c := by
  have h := hooksFold_outer n d reg ([], [], c)
  simpa [executeHooks] using h

/-- C5 (amended): `executePluginCommand` fails with the `CommandNotFound`
error when the name is absent from the effective command table, in that
case leaving the settings (history included) untouched and logging
nothing; when the name is present it invokes the handler with
`(args, settings, owner)` and propagates the handler's result; a handler
failure is logged with the command name and the error message — the log
line does not name the owner — and then re-raised, never swallowed. -/
theorem invokeCommand_spec (reg : Registry) (name : String)
    (args : List String) (s : Settings) :
    (mapGet (getPluginCommands reg) name = none →
      executePluginCommand reg name args s =
        (Except.error (cmdNotFoundMsg name), s, [])) ∧
    (∀ c, mapGet (getPluginCommands reg) name = some c →
      (∀ v s2, c.handler args s c.plugin = (Except.ok v, s2) →
        executePluginCommand reg name args s = (Except.ok v, s2, [])) ∧
      (∀ e s2, c.handler args s c.plugin = (Except.error e, s2) →
        executePluginCommand reg name args s =
          (Except.error e, s2, [cmdFailLog name e]))) := by
  refine ⟨fun h => ?_, fun c hc => ⟨fun v s2 hv => ?_, fun e s2 he => ?_⟩⟩ <;>
    simp [executePluginCommand, *]

/-- Witness for C5 at a concrete input: an absent name yields the
not-found error and returns the settings unchanged with no log. -/
theorem invokeCommand_spec_witness :
    executePluginCommand regMy "missing" [] settings0 =
      (Except.error (cmdNotFoundMsg "missing"), settings0, []) :=
  (invokeCommand_spec regMy "missing" [] settings0).1 rfl

/-- C5 counterexample to the claim as stated: for the command `x` owned by
plugin `ownerplugin` whose handler throws `boom`, the single log line is
`Plugin command 'x' failed: boom`, which does not contain the owner's
name anywhere — the failure is not "logged with the command name and
owner". -/
theorem invokeCommand_owner_not_logged :
    executePluginCommand regOwner "x" [] settings0 =
      (Except.error "boom", settings0, ["Plugin command 'x' failed: boom"]) ∧
    containsStr "Plugin command 'x' failed: boom" "ownerplugin" = false :=
  ⟨rfl, by decide⟩

/-- C9 (amended): plugin-scoped configuration round-trips through the
capability handle exactly when the stored value is truthy: after
`setConfig k v`, `getConfig k d` returns `v` when `v` is truthy and the
default `d` when `v` is falsy (the JS `||` in `getConfig`). -/
theorem getConfig_after_setConfig (api : PluginAPI) (k : String)
    (v d : JSVal) :
    (v.truthy = true → (api.setConfig k v).getConfig k d = v) ∧
    (v.truthy = false → (api.setConfig k v).getConfig k d = d) := by
  constructor <;> intro hv <;>
    simp [PluginAPI.getConfig, PluginAPI.setConfig, mapGet_mapSet_self, hv]

/-- Witness for C9 at a concrete input: a truthy stored value is returned
rather than the default. -/
theorem getConfig_after_setConfig_witness :
    (JSVal.num 5).truthy = true ∧
    (apiEmpty.setConfig "k" (JSVal.num 5)).getConfig "k" JSVal.null =
      JSVal.num 5 :=
  ⟨rfl, (getConfig_after_setConfig apiEmpty "k" (JSVal.num 5) JSVal.null).1 rfl⟩

/-- C9 counterexample to the claim as stated: storing the falsy value
`false` and reading it back with default `"d"` yields the default, not
the stored value. -/
theorem getConfig_falsy_returns_default :
    (apiEmpty.setConfig "k" (JSVal.bool false)).getConfig "k"
      (JSVal.str "d") = JSVal.str "d" ∧
    JSVal.str "d" ≠ JSVal.bool false :=
  ⟨rfl, by decide⟩

/-- C10: `loadPlugin` is atomic with respect to the registry: whenever the
load fails — missing source file, import error, a module with neither a
default nor an `init` initializer, or a throwing initializer, i.e.
whenever the outcome is an error — the registry is returned exactly as it
was; the new entry is inserted (`mapSet`) only when the initializer has
completed successfully. -/
theorem loadPlugin_atomic (env : Env) (reg : Registry) (pluginPath : String) :
    ((loadPlugin env reg pluginPath).2.toOption = none →
      (loadPlugin env reg pluginPath).1 = reg) ∧
    (∀ p, (loadPlugin env reg pluginPath).2 = Except.ok p →
      (loadPlugin env reg pluginPath).1 = mapSet reg p.name p) := by
  cases h : loadPluginCore env pluginPath with
  | error e =>
    refine ⟨fun _ => ?_, fun p hp => ?_⟩ <;> simp [loadPlugin, h] at *
  | ok plugin =>
    refine ⟨fun hn => ?_, fun p hp => ?_⟩
    · simp [loadPlugin, h, Except.toOption] at hn
    · simp only [loadPlugin, h] at hp ⊢
      have hpe : plugin = p := by simpa using hp
      rw [hpe]

/-- Witness for C10 at a concrete input: with no plugin file present the
load fails and the registry stays empty. -/
theorem loadPlugin_atomic_witness :
    (loadPlugin envFail [] "missing.js").2.toOption = none ∧
    (loadPlugin envFail [] "missing.js").1 = [] :=
  ⟨rfl, (loadPlugin_atomic envFail [] "missing.js").1 rfl⟩

theorem trimHistory_length_le (h : List String) :
    (trimHistory h).length ≤ 100 := by
  unfold trimHistory
  split
  · simp only [List.length_drop]
    omega
  · omega

theorem trimHistory_of_le (h : List String) (hle : h.length ≤ 100) :
    trimHistory h = h := by
  unfold trimHistory
  rw [if_neg (by omega)]

theorem trimHistory_overflow (h : List String) (t : String)
    (hlen : h.length = 100) :
    trimHistory (h ++ [t]) = h.tail ++ [t] := by
  have hl : (h ++ [t]).length = 101 := by simp [hlen]
  unfold trimHistory
  rw [if_pos (by omega), hl]
  norm_num
  cases h with
  | nil => simp at hlen
  | cons a rest => simp

theorem processInput_of_ne (input : String) (config : Settings)
    (h : jsTrim input ≠ "") :
    processInput input config =
      (⟨config.aliases, trimHistory (config.history ++ [jsTrim input])⟩,
       [Event.save
          ⟨config.aliases, trimHistory (config.history ++ [jsTrim input])⟩,
        Event.dispatch (resolveLine (jsTrim input)
          ⟨config.aliases, trimHistory (config.history ++ [jsTrim input])⟩)]) := by
  unfold processInput
  rw [if_neg h]

theorem dispatchOf_processInput (input : String) (config : Settings)
    (h : jsTrim input ≠ "") :
    dispatchOf (processInput input config) =
      some (resolveLine (jsTrim input)
        ⟨config.aliases, trimHistory (config.history ++ [jsTrim input])⟩) := by
  rw [processInput_of_ne input config h]
  rfl

theorem resolveLine_builtin (t : String) (cfg : Settings)
    (hb : isBuiltin ((splitChar ' ' t).headD "") = true) :
    resolveLine t cfg =
      Dispatch.builtin ((splitChar ' ' t).headD "")
        (splitChar ' ' t).tail := by
  unfold resolveLine
  simp only [hb]
  rfl

theorem resolveLine_aliased (t : String) (cfg : Settings) (a : String)
    (hnb : isBuiltin ((splitChar ' ' t).headD "") = false)
    (ha : (mapGet cfg.aliases ((splitChar ' ' t).headD "")).getD "" = a)
    (hane : a ≠ "") :
    resolveLine t cfg =
      if isBuiltin ((splitChar ' ' a).headD "") then
        Dispatch.builtin ((splitChar ' ' a).headD "") (splitChar ' ' a).tail
      else Dispatch.runExternal a := by
  unfold resolveLine
  simp only [hnb, Bool.false_eq_true, if_false, ha, if_neg hane]

theorem resolveLine_neoCli (t : String) (cfg : Settings)
    (hnb : isBuiltin ((splitChar ' ' t).headD "") = false)
    (hae : (mapGet cfg.aliases ((splitChar ' ' t).headD "")).getD "" = "")
    (hcmd : (splitChar ' ' t).headD "" = "neo-cli") :
    resolveLine t cfg = Dispatch.neoCliNotice := by
  unfold resolveLine
  simp only [hnb, Bool.false_eq_true, if_false, hae, if_true]
  rw [if_pos hcmd]

theorem resolveLine_fallthrough (t : String) (cfg : Settings)
    (hnb : isBuiltin ((splitChar ' ' t).headD "") = false)
    (hae : (mapGet cfg.aliases ((splitChar ' ' t).headD "")).getD "" = "")
    (hcmd : (splitChar ' ' t).headD "" ≠ "neo-cli") :
    resolveLine t cfg = Dispatch.runExternal t := by
  unfold resolveLine
  simp only [hnb, Bool.false_eq_true, if_false, hae, if_true]
  rw [if_neg hcmd]

/-- C4: for every non-empty input line, `processInput` appends the trimmed
line to `Settings.history` and asks the store to persist (`save`) before
the line is dispatched, whatever the dispatch turns out to be; after the
append the history holds at most 100 entries; below the cap the line is
appended verbatim, and at the cap the oldest (first) entry is evicted. -/
theorem history_append_before_dispatch (input : String) (config : Settings)
    (h : jsTrim input ≠ "") :
    ∃ d : Dispatch, ∃ config1 : Settings,
      processInput input config =
        (config1, [Event.save config1, Event.dispatch d]) ∧
      config1.aliases = config.aliases ∧
      config1.history = trimHistory (config.history ++ [jsTrim input]) ∧
      config1.history.length ≤ 100 ∧
      (config.history.length ≤ 99 →
        config1.history = config.history ++ [jsTrim input]) ∧
      (config.history.length = 100 →
        config1.history = config.history.tail ++ [jsTrim input]) := by
  refine ⟨resolveLine (jsTrim input)
      ⟨config.aliases, trimHistory (config.history ++ [jsTrim input])⟩,
    ⟨config.aliases, trimHistory (config.history ++ [jsTrim input])⟩,
    processInput_of_ne input config h, rfl, rfl, trimHistory_length_le _,
    fun hle => ?_, fun hcap => ?_⟩
  · exact trimHistory_of_le _ (by simp; omega)
  · exact trimHistory_overflow _ _ hcap

/-- Witness for C4 at a concrete input. -/
theorem history_append_before_dispatch_witness :
    ∃ d : Dispatch, ∃ config1 : Settings,
      processInput "hi" settings0 =
        (config1, [Event.save config1, Event.dispatch d]) ∧
      config1.aliases = settings0.aliases ∧
      config1.history = trimHistory (settings0.history ++ [jsTrim "hi"]) ∧
      config1.history.length ≤ 100 ∧
      (settings0.history.length ≤ 99 →
        config1.history = settings0.history ++ [jsTrim "hi"]) ∧
      (settings0.history.length = 100 →
        config1.history = settings0.history.tail ++ [jsTrim "hi"]) :=
  history_append_before_dispatch "hi" settings0 (by decide)

/-- C3 (amended): alias expansion is exactly one level, for aliases whose
stored command-line string is non-empty: when the first token of the
trimmed line is not a built-in and has a non-empty entry `a` in the alias
table, the line is dispatched per the re-tokenised expansion `a` — to the
built-in named by `a`'s first token with `a`'s remaining tokens as
arguments if that token is a built-in, and otherwise to the external
runner with the whole expanded line, never expanding a second time. -/
theorem alias_expansion_one_level (input : String) (config : Settings)
    (a : String)
    (hne : jsTrim input ≠ "")
    (hnb : isBuiltin ((splitChar ' ' (jsTrim input)).headD "") = false)
    (ha : (mapGet config.aliases
      ((splitChar ' ' (jsTrim input)).headD "")).getD "" = a)
    (hane : a ≠ "") :
    dispatchOf (processInput input config) =
      some (if isBuiltin ((splitChar ' ' a).headD "") then
        Dispatch.builtin ((splitChar ' ' a).headD "") (splitChar ' ' a).tail
      else Dispatch.runExternal a) := by
  rw [dispatchOf_processInput input config hne]
  exact congrArg some (resolveLine_aliased (jsTrim input) _ a hnb ha hane)

/-- Witness for C3 at a concrete input: alias `ll → ls -la` with built-in
head `ls`. -/
theorem alias_expansion_one_level_witness :
    dispatchOf (processInput "ll x" ⟨[("ll", "ls -la")], []⟩) =
      some (if isBuiltin ((splitChar ' ' "ls -la").headD "") then
        Dispatch.builtin ((splitChar ' ' "ls -la").headD "")
          (splitChar ' ' "ls -la").tail
      else Dispatch.runExternal "ls -la") :=
  alias_expansion_one_level "ll x" ⟨[("ll", "ls -la")], []⟩ "ls -la"
    (by decide) (by decide) (by decide) (by decide)

/-- C3 counterexample to the claim as stated: with alias table
`{"foo": ""}` — the first token `foo` *is* a key of the alias table and
not a built-in — the claim prescribes running the expanded (empty) line
as the external command, but the code's truthiness test skips the alias
tier entirely and sends the original line `foo` to the external runner
instead. -/
theorem alias_empty_string_skipped :
    dispatchOf (processInput "foo" ⟨[("foo", "")], []⟩) =
      some (Dispatch.runExternal "foo") ∧
    some (Dispatch.runExternal "foo") ≠ some (Dispatch.runExternal "") :=
  ⟨by decide, by decide⟩

/-- C6 (amended): the resolver applies its tiers in fixed order, first
match winning: an empty (after trimming) line is a no-op; a built-in
first token is dispatched to the built-in with the remaining tokens (so a
built-in name shadows any same-named alias); otherwise a non-empty alias
entry is expanded one level; otherwise the literal first token `neo-cli`
produces the informational notice; otherwise the line goes to the
external runner. -/
theorem resolver_precedence (input : String) (config : Settings) :
    (jsTrim input = "" → processInput input config = (config, [])) ∧
    (jsTrim input ≠ "" →
      (isBuiltin ((splitChar ' ' (jsTrim input)).headD "") = true →
        dispatchOf (processInput input config) =
          some (Dispatch.builtin ((splitChar ' ' (jsTrim input)).headD "")
            (splitChar ' ' (jsTrim input)).tail)) ∧
      (∀ a, isBuiltin ((splitChar ' ' (jsTrim input)).headD "") = false →
        (mapGet config.aliases
          ((splitChar ' ' (jsTrim input)).headD "")).getD "" = a →
        a ≠ "" →
        dispatchOf (processInput input config) =
          some (if isBuiltin ((splitChar ' ' a).headD "") then
            Dispatch.builtin ((splitChar ' ' a).headD "")
              (splitChar ' ' a).tail
          else Dispatch.runExternal a)) ∧
      (isBuiltin ((splitChar ' ' (jsTrim input)).headD "") = false →
        (mapGet config.aliases
          ((splitChar ' ' (jsTrim input)).headD "")).getD "" = "" →
        (splitChar ' ' (jsTrim input)).headD "" = "neo-cli" →
        dispatchOf (processInput input config) =
          some Dispatch.neoCliNotice) ∧
      (isBuiltin ((splitChar ' ' (jsTrim input)).headD "") = false →
        (mapGet config.aliases
          ((splitChar ' ' (jsTrim input)).headD "")).getD "" = "" →
        (splitChar ' ' (jsTrim input)).headD "" ≠ "neo-cli" →
        dispatchOf (processInput input config) =
          some (Dispatch.runExternal (jsTrim input)))) := by
  refine ⟨fun he => ?_, fun hne => ⟨fun hb => ?_, fun a hnb ha hane => ?_,
    fun hnb hae hcmd => ?_, fun hnb hae hcmd => ?_⟩⟩
  · unfold processInput
    rw [if_pos he]
  · rw [dispatchOf_processInput input config hne]
    exact congrArg some (resolveLine_builtin (jsTrim input) _ hb)
  · rw [dispatchOf_processInput input config hne]
    exact congrArg some (resolveLine_aliased (jsTrim input) _ a hnb ha hane)
  · rw [dispatchOf_processInput input config hne]
    exact congrArg some (resolveLine_neoCli (jsTrim input) _ hnb hae hcmd)
  · rw [dispatchOf_processInput input config hne]
    exact congrArg some (resolveLine_fallthrough (jsTrim input) _ hnb hae hcmd)

/-- Witness for C6 at a concrete input: `ls -la` with an alias also named
`ls` — the built-in tier wins. -/
theorem resolver_precedence_witness :
    dispatchOf (processInput "ls -la" ⟨[("ls", "echo hi")], []⟩) =
      some (Dispatch.builtin ((splitChar ' ' (jsTrim "ls -la")).headD "")
        (splitChar ' ' (jsTrim "ls -la")).tail) :=
  ((resolver_precedence "ls -la" ⟨[("ls", "echo hi")], []⟩).2
    (by decide)).1 (by decide)

/-- C6 counterexample to the claim as stated: for the line
`neo-cli status` (first token neither a built-in nor an alias key), the
claim prescribes delegation to the external runner, but the code prints
the `neo-cli` informational notice and dispatches nothing externally. -/
theorem neoCli_line_not_external :
    dispatchOf (processInput "neo-cli status" settings0) =
      some Dispatch.neoCliNotice ∧
    some Dispatch.neoCliNotice ≠
      some (Dispatch.runExternal "neo-cli status") :=
  ⟨by decide, by decide⟩

/-- C8: the interactive resolver never consults the plugin registry's
effective command table: for every registry `reg` and every line whose
first token is neither a built-in, nor a (truthy) alias key, nor the
literal `neo-cli`, the line is delegated to the external runner even when
the effective table of `reg` has a command of exactly that name — the
decision does not mention `reg` at all (`processInput` takes no registry
input, mirroring the source module, which does not import the plugin
system). -/
theorem resolver_ignores_registry (input : String) (config : Settings)
    (reg : Registry) (entry : PluginCommand)
    (hne : jsTrim input ≠ "")
    (hnb : isBuiltin ((splitChar ' ' (jsTrim input)).headD "") = false)
    (hna : (mapGet config.aliases
      ((splitChar ' ' (jsTrim input)).headD "")).getD "" = "")
    (hnn : (splitChar ' ' (jsTrim input)).headD "" ≠ "neo-cli")
    (_hreg : mapGet (getPluginCommands reg)
      ((splitChar ' ' (jsTrim input)).headD "") = some entry) :
    dispatchOf (processInput input config) =
      some (Dispatch.runExternal (jsTrim input)) := by
  rw [dispatchOf_processInput input config hne]
  exact congrArg some (resolveLine_fallthrough (jsTrim input) _ hnb hna hnn)

/-- Witness for C8 at a concrete input: `mycmd` is a registered plugin
command of `regMy`, yet the line `mycmd arg` goes to the external
runner. -/
theorem resolver_ignores_registry_witness :
    dispatchOf (processInput "mycmd arg" settings0) =
      some (Dispatch.runExternal (jsTrim "mycmd arg")) :=
  resolver_ignores_registry "mycmd arg" settings0 regMy
    ⟨okHandler, "", "p"⟩ (by decide) (by decide) (by decide) (by decide) rfl

theorem any_key_iff_mem_mapKeys {α : Type} (m : List (String × α))
    (k : String) :
    (m.any (fun p => p.1 == k)) = true ↔ k ∈ mapKeys m := by
  simp only [List.any_eq_true, mapKeys, List.mem_map, beq_iff_eq]

theorem mapKeys_mapSet_of_mem {α : Type} (m : List (String × α))
    (k : String) (v : α) (h : k ∈ mapKeys m) :
    mapKeys (mapSet m k v) = mapKeys m := by
  unfold mapSet
  rw [if_pos ((any_key_iff_mem_mapKeys m k).2 h)]
  unfold mapKeys
  rw [List.map_map]
  exact List.map_congr_left (fun p _ => by
    cases hp : (p.1 == k) with
    | true => simp_all
    | false =>
      have hpe : p.1 ≠ k := by simpa using hp
      simp [hpe])

theorem mapSet_of_not_mem {α : Type} (m : List (String × α))
    (k : String) (v : α) (h : k ∉ mapKeys m) :
    mapSet m k v = m ++ [(k, v)] := by
  unfold mapSet
  rw [if_neg]
  intro hA
  exact h ((any_key_iff_mem_mapKeys m k).1 hA)

theorem mapKeys_append {α : Type} (m1 m2 : List (String × α)) :
    mapKeys (m1 ++ m2) = mapKeys m1 ++ mapKeys m2 := by
  simp [mapKeys]

theorem nodup_mapKeys_mapSet {α : Type} (m : List (String × α))
    (k : String) (v : α) (h : (mapKeys m).Nodup) :
    (mapKeys (mapSet m k v)).Nodup := by
  by_cases hk : k ∈ mapKeys m
  · rw [mapKeys_mapSet_of_mem m k v hk]
    exact h
  · rw [mapSet_of_not_mem m k v hk, mapKeys_append]
    rw [List.nodup_append]
    exact ⟨h, List.nodup_singleton k,
      fun a ha hb => by simp [mapKeys] at hb; subst hb; exact hk ha⟩

theorem loadPluginCore_name (env : Env) (q : String) (p : Plugin)
    (h : loadPluginCore env q = Except.ok p) : p.name = basename q := by
  unfold loadPluginCore at h
  split at h
  · exact absurd h (by simp)
  · split at h
    · exact absurd h (by simp)
    · split at h
      · exact absurd h (by simp)
      · have hp := Except.ok.inj h
        rw [← hp]

theorem loadSeq_nil (env : Env) (reg : Registry) :
    loadSeq env reg [] = reg := rfl

theorem loadSeq_cons (env : Env) (reg : Registry) (q : String)
    (qs : List String) :
    loadSeq env reg (q :: qs) = loadSeq env (loadPlugin env reg q).1 qs := rfl

theorem loadSeq_nodup (env : Env) :
    ∀ (paths : List String) (reg0 : Registry),
    (mapKeys reg0).Nodup → (mapKeys (loadSeq env reg0 paths)).Nodup := by
  intro paths
  induction paths with
  | nil => intro reg0 h; exact h
  | cons q qs ih =>
    intro reg0 h
    rw [loadSeq_cons]
    refine ih _ ?_
    cases hc : loadPluginCore env q with
    | error e => simpa [loadPlugin, hc] using h
    | ok pl =>
      simp only [loadPlugin, hc]
      exact nodup_mapKeys_mapSet reg0 pl.name pl h

theorem loadSeq_getAll (env : Env) :
    ∀ (paths : List String) (reg0 : Registry),
    (paths.map basename).Nodup →
    (∀ q ∈ paths, basename q ∉ mapKeys reg0) →
    getAllPlugins (loadSeq env reg0 paths) =
      getAllPlugins reg0 ++
        paths.filterMap (fun q => (loadPluginCore env q).toOption) := by
  intro paths
  induction paths with
  | nil => intro reg0 _ _; simp [loadSeq, getAllPlugins]
  | cons q qs ih =>
    intro reg0 hnd hdisj
    rw [loadSeq_cons]
    cases hc : loadPluginCore env q with
    | error e =>
      have hstep : (loadPlugin env reg0 q).1 = reg0 := by simp [loadPlugin, hc]
      rw [hstep, ih reg0 (by simpa using hnd.of_cons)
        (fun r hr => hdisj r (List.mem_cons_of_mem q hr))]
      simp [hc, Except.toOption]
    | ok pl =>
      have hname : pl.name = basename q := loadPluginCore_name env q pl hc
      have hnotmem : pl.name ∉ mapKeys reg0 := by
        rw [hname]
        exact hdisj q (List.mem_cons_self q qs)
      have hstep : (loadPlugin env reg0 q).1 = reg0 ++ [(pl.name, pl)] := by
        simp only [loadPlugin, hc]
        exact mapSet_of_not_mem reg0 pl.name pl hnotmem
      rw [hstep, ih (reg0 ++ [(pl.name, pl)]) (by simpa using hnd.of_cons) ?_]
      · simp [getAllPlugins, hc, Except.toOption]
      · intro r hr
        rw [mapKeys_append]
        simp only [List.mem_append]
        rintro (hin | hin)
        · exact hdisj r (List.mem_cons_of_mem q hr) hin
        · simp only [mapKeys, List.map_cons, List.map_nil,
            List.mem_singleton] at hin
          have hq : basename q ∉ qs.map basename := by
            rw [List.map_cons, List.nodup_cons] at hnd
            exact hnd.1
          apply hq
          rw [← hname, ← hin]
          exact List.mem_map_of_mem basename hr

/-- C7: the registry never holds two entries with the same derived name —
starting from a duplicate-free registry, any sequence of `loadPlugin`
calls keeps the key list duplicate-free; a load whose derived name is
already present replaces that entry in place (the key list is unchanged);
and for loads with pairwise distinct derived names starting from the empty
registry, `getAllPlugins` returns exactly the successfully loaded plugins
in load order. -/
theorem registry_unique_names_and_order :
    (∀ (env : Env) (reg0 : Registry) (paths : List String),
      (mapKeys reg0).Nodup → (mapKeys (loadSeq env reg0 paths)).Nodup) ∧
    (∀ (env : Env) (reg : Registry) (q : String) (p : Plugin),
      loadPluginCore env q = Except.ok p → p.name ∈ mapKeys reg →
      mapKeys (loadPlugin env reg q).1 = mapKeys reg) ∧
    (∀ (env : Env) (paths : List String),
      (paths.map basename).Nodup →
      getAllPlugins (loadSeq env [] paths) =
        paths.filterMap (fun q => (loadPluginCore env q).toOption)) := by
  refine ⟨fun env reg0 paths h => loadSeq_nodup env paths reg0 h,
    fun env reg q p hc hmem => ?_, fun env paths hnd => ?_⟩
  · simp only [loadPlugin, hc]
    exact mapKeys_mapSet_of_mem reg p.name p hmem
  · have := loadSeq_getAll env paths [] hnd (by simp [mapKeys])
    simpa [getAllPlugins] using this

/-- Witness for C7 at a concrete input: loading `a.js` then `b.js` in an
environment where every load succeeds yields duplicate-free keys and the
two plugins in load order. -/
theorem registry_unique_names_and_order_witness :
    (mapKeys (loadSeq envW [] ["a.js", "b.js"])).Nodup ∧
    getAllPlugins (loadSeq envW [] ["a.js", "b.js"]) =
      ["a.js", "b.js"].filterMap
        (fun q => (loadPluginCore envW q).toOption) :=
  ⟨registry_unique_names_and_order.1 envW [] ["a.js", "b.js"]
     (by simp [mapKeys]),
   registry_unique_names_and_order.2.2 envW ["a.js", "b.js"] (by decide)⟩

end NeoCli
